import Mathlib

/-!
Verification development for the incremental clustering engine of
`src/binitys.py`.  The Python functions `build_article_text`,
`compare_articles_score` and `cluster_articles_with_tfidf` are embedded
shallowly: scores are rationals, the LLM oracle is a parameter returning
the parse result of its textual response (`none` when the response does
not parse as a number), the TF-IDF cosine similarity is a parameter, and
the Python dictionaries are insertion-ordered association lists with
replace-in-place update semantics.
-/

namespace Binitys

/-- An article record, from the JSON article dictionaries consumed by
`src/binitys.py` (fields `document name`, `article id`, `article name`,
`article paragraphs`; a missing field reads as the empty value). -/
structure Article where
  docName : String
  articleId : String
  articleName : String
  paragraphs : List String
deriving DecidableEq, Inhabited, Repr

/-- `build_article_text` from `src/binitys.py` lines 23-29: document name,
article id, article name and every paragraph, each followed by a newline. -/
def build_article_text (a : Article) : String :=
  a.docName ++ "\n" ++ a.articleId ++ "\n" ++ a.articleName ++ "\n" ++
    String.join (a.paragraphs.map (fun p => p ++ "\n"))

/-- `compare_articles_score` from `src/binitys.py` lines 119-125, applied to
the parse outcome of the oracle response: a response that parses to `v` is
clamped by `max(0.0, min(1.0, score))`, written here in the equivalent
executable `if` form; an unparseable response (`none`) yields the
sentinel `-1`. -/
def compare_articles_score (resp : Option ℚ) : ℚ :=
  match resp with
  | some v => if v < 0 then 0 else if 1 < v then 1 else v
  | none => -1

/-- A member entry of a cluster: `{"article": ..., "reference_article": ...}`. -/
structure Member where
  article : Article
  reference_article : Bool
deriving DecidableEq, Repr

/-- The cluster label of an article: `document name ++ " " ++ article id`
(`src/binitys.py` lines 147-149). -/
def labelOf (a : Article) : String :=
  a.docName ++ " " ++ a.articleId

/-- Python dictionary assignment `d[k] = v` on an insertion-ordered
association list: replace the value in place when the key is present,
append a new entry otherwise. -/
def dictInsert (d : List (String × List Member)) (k : String) (v : List Member) :
    List (String × List Member) :=
  match d with
  | [] => [(k, v)]
  | (k2, v2) :: rest =>
    if k2 = k then (k, v) :: rest else (k2, v2) :: dictInsert rest k v

/-- Python `d[k].append(m)`: append a member to the value of the first entry
whose key is `k` (in the engine the key is always present). -/
def dictAppendMember (d : List (String × List Member)) (k : String) (m : Member) :
    List (String × List Member) :=
  match d with
  | [] => []
  | (k2, ms) :: rest =>
    if k2 = k then (k2, ms ++ [m]) :: rest else (k2, ms) :: dictAppendMember rest k m

/-- State of the inner LLM comparison loop of `cluster_articles_with_tfidf`
(`src/binitys.py` lines 186-213), with an instrumentation field `queried`
recording the candidate reference indices on which the oracle was called. -/
structure LoopState where
  best_score : ℚ
  best_ref_label : Option String
  best_ref_idx : Option Nat
  prelim_matches : List (String × ℚ × Nat)
  queried : List Nat
deriving DecidableEq, Repr

/-- Initial loop state: `best_score = -5.0`, no best reference, no
preliminary matches (`src/binitys.py` lines 186-189). -/
def initLoop : LoopState :=
  { best_score := -5, best_ref_label := none, best_ref_idx := none,
    prelim_matches := [], queried := [] }

/-- The candidate comparison loop of `src/binitys.py` lines 191-213: for each
candidate reference in order, query the oracle; record the candidate in
`prelim_matches` when its score strictly exceeds `llm_threshold`; update the
best score on strict improvement; when the score reaches `early_exit`,
replace `prelim_matches` by the single current candidate and stop. -/
def llmLoop (oracleScore : Nat → ℚ) (refLabel : Nat → String)
    (llm_threshold early_exit : ℚ) : List Nat → LoopState → LoopState
  | [], s => s
  | r :: rest, s =>
    let ref_label := refLabel r
    let score := oracleScore r
    let prelim2 :=
      if llm_threshold < score then s.prelim_matches ++ [(ref_label, score, r)]
      else s.prelim_matches
    let best2 :=
      if s.best_score < score then (score, some ref_label, some r)
      else (s.best_score, s.best_ref_label, s.best_ref_idx)
    if early_exit ≤ score then
      { best_score := score, best_ref_label := some ref_label, best_ref_idx := some r,
        prelim_matches := [(ref_label, score, r)], queried := s.queried ++ [r] }
    else
      llmLoop oracleScore refLabel llm_threshold early_exit rest
        { best_score := best2.1, best_ref_label := best2.2.1, best_ref_idx := best2.2.2,
          prelim_matches := prelim2, queried := s.queried ++ [r] }

/-- Python `max(l, key=lambda x: x[1])` over a nonempty list `x :: xs`:
fold keeping the current maximum, replacing it only on strict improvement,
so the first occurrence of the maximal score wins. -/
def pyMax (x : String × ℚ × Nat) : List (String × ℚ × Nat) → String × ℚ × Nat
  | [] => x
  | y :: ys => pyMax (if x.2.1 < y.2.1 then y else x) ys

/-- Engine state of `cluster_articles_with_tfidf`: the reference index pool,
the index-to-cluster-label map, the label-keyed cluster store, plus
instrumentation: the oracle call trace `queried_pairs` (article index,
reference index) and `match_count`, the number of articles appended to an
existing cluster as non-reference members. -/
structure EngineState where
  reference_indices : List Nat
  reference_to_label : List (Nat × String)
  clusters : List (String × List Member)
  queried_pairs : List (Nat × Nat)
  match_count : Nat
deriving DecidableEq, Repr

/-- The empty initial engine state (`src/binitys.py` lines 137-139). -/
def initState : EngineState :=
  { reference_indices := [], reference_to_label := [], clusters := [],
    queried_pairs := [], match_count := 0 }

/-- Candidate selection for article `idx` (`src/binitys.py` lines 163-175):
keep the reference indices, in pool order, whose article is from a different
document and whose TF-IDF cosine similarity reaches `tfidf_threshold`. -/
def candidateRefs (articles : List Article) (tfidfSim : Nat → Nat → ℚ)
    (tfidf_threshold : ℚ) (refs : List Nat) (idx : Nat) : List Nat :=
  refs.filter (fun r =>
    !((articles.getD idx default).docName == (articles.getD r default).docName) &&
      decide (tfidf_threshold ≤ tfidfSim idx r))

/-- One iteration of the main loop of `cluster_articles_with_tfidf`
(`src/binitys.py` lines 146-231) for the article at position `idx`. -/
def processArticle (articles : List Article) (tfidfSim : Nat → Nat → ℚ)
    (oracle : Nat → Nat → Option ℚ)
    (tfidf_threshold llm_threshold early_exit : ℚ)
    (st : EngineState) (idx : Nat) : EngineState :=
  let article := articles.getD idx default
  let article_label := labelOf article
  if idx = 0 then
    { st with
        reference_indices := st.reference_indices ++ [idx],
        reference_to_label := st.reference_to_label ++ [(idx, article_label)],
        clusters := dictInsert st.clusters article_label [⟨article, true⟩] }
  else
    let candidate_refs :=
      candidateRefs articles tfidfSim tfidf_threshold st.reference_indices idx
    if candidate_refs.isEmpty then
      { st with
          reference_indices := st.reference_indices ++ [idx],
          reference_to_label := st.reference_to_label ++ [(idx, article_label)],
          clusters := dictInsert st.clusters article_label [⟨article, true⟩] }
    else
      let res := llmLoop (fun r => compare_articles_score (oracle idx r))
        (fun r => (List.lookup r st.reference_to_label).getD "")
        llm_threshold early_exit candidate_refs initLoop
      match res.prelim_matches with
      | [] =>
        { st with
            reference_indices := st.reference_indices ++ [idx],
            reference_to_label := st.reference_to_label ++ [(idx, article_label)],
            clusters := dictInsert st.clusters article_label [⟨article, true⟩],
            queried_pairs := st.queried_pairs ++ res.queried.map (fun r => (idx, r)) }
      | p :: ps =>
        let chosen_ref_label := (pyMax p ps).1
        { st with
            reference_indices := st.reference_indices ++ [idx],
            reference_to_label := st.reference_to_label ++ [(idx, chosen_ref_label)],
            clusters := dictAppendMember st.clusters chosen_ref_label ⟨article, false⟩,
            queried_pairs := st.queried_pairs ++ res.queried.map (fun r => (idx, r)),
            match_count := st.match_count + 1 }

/-- `cluster_articles_with_tfidf` from `src/binitys.py` lines 131-233:
process the articles in order, starting from the empty state. -/
def cluster_articles_with_tfidf (articles : List Article)
    (tfidfSim : Nat → Nat → ℚ) (oracle : Nat → Nat → Option ℚ)
    (tfidf_threshold llm_threshold early_exit : ℚ) : EngineState :=
  (List.range articles.length).foldl
    (processArticle articles tfidfSim oracle tfidf_threshold llm_threshold early_exit)
    initState

/-- Total number of occurrences of article `a` among the members of all
clusters of a store. -/
def countArticle (cs : List (String × List Member)) (a : Article) : Nat :=
  (cs.map (fun c => (c.2.filter (fun m => m.article == a)).length)).sum

/-- The rational 3/10, in constructor form so that kernel reduction works. -/
def q03 : ℚ := ⟨3, 10, by norm_num, by norm_num⟩

/-- The rational 1/2, in constructor form. -/
def qHalf : ℚ := ⟨1, 2, by norm_num, by norm_num⟩

/-- The rational 4/5 = 0.8, in constructor form. -/
def q08 : ℚ := ⟨4, 5, by norm_num, by norm_num⟩

/-- The rational 9/10 = 0.9, in constructor form. -/
def q09 : ℚ := ⟨9, 10, by norm_num, by norm_num⟩

/-- The rational 19/20 = 0.95, in constructor form. -/
def q095 : ℚ := ⟨19, 20, by norm_num, by norm_num⟩

/-- The rational 24/25 = 0.96, in constructor form. -/
def q096 : ℚ := ⟨24, 25, by norm_num, by norm_num⟩

/-- Article A of the specification scenario: document `doc1`, id `a1`. -/
def articleA : Article := ⟨"doc1", "a1", "A", ["alpha"]⟩

/-- Article B of the specification scenario: document `doc2`, id `b1`. -/
def articleB : Article := ⟨"doc2", "b1", "B", ["beta"]⟩

/-- Article C of the specification scenario: document `doc3`, id `c1`. -/
def articleC : Article := ⟨"doc3", "c1", "C", ["gamma"]⟩

/-- The scenario article sequence A, B, C. -/
def scenarioArticles : List Article := [articleA, articleB, articleC]

/-- Scenario oracle: A-B scores 0.9, A-C scores 0.3, any other pairing
parses to 0 (completely unrelated). -/
def scenarioOracle : Nat → Nat → Option ℚ := fun i r =>
  if i = 1 && r = 0 then some q09
  else if i = 2 && r = 0 then some q03
  else some 0

/-- Scenario TF-IDF similarity: every pair scores 1/2, so with
`tfidf_threshold = 0` every pair passes the pre-filter. -/
def scenarioTfidf : Nat → Nat → ℚ := fun _ _ => qHalf

/-- The clamp of a parsed score equals `max 0 (min 1 v)`, as written in
`src/binitys.py` line 122. -/
theorem compare_some_eq_clamp (v : ℚ) :
    compare_articles_score (some v) = max 0 (min 1 v) := by
  simp only [compare_articles_score]
  rcases lt_or_le v 0 with h | h
  · rw [if_pos h]
    exact (max_eq_left (le_trans (min_le_right 1 v) h.le)).symm
  · rw [if_neg (not_lt.2 h)]
    rcases lt_or_le 1 v with h1 | h1
    · rw [if_pos h1, min_eq_left h1.le]
      exact (max_eq_right zero_le_one).symm
    · rw [if_neg (not_lt.2 h1), min_eq_right h1]
      exact (max_eq_right h).symm

/-- Every parseable score is clamped into `[0, 1]`. -/
theorem compare_some_nonneg (v : ℚ) : 0 ≤ compare_articles_score (some v) := by
  rw [compare_some_eq_clamp]
  exact le_max_left 0 (min 1 v)

/-- Every parseable score is at most 1 after clamping. -/
theorem compare_some_le_one (v : ℚ) : compare_articles_score (some v) ≤ 1 := by
  rw [compare_some_eq_clamp]
  exact max_le zero_le_one (min_le_left 1 v)

/-- C10: the pairwise scoring function returns the invalid sentinel `-1`
exactly when the oracle response cannot be parsed as a number; every
parseable response `v` is clamped to `max 0 (min 1 v)`, hence into `[0, 1]`;
in particular the out-of-range but parseable responses `5` and `-3` are
clamped to `1` and `0`, and the clamped `5` still satisfies the thresholds
`llm_threshold = 0.8` and `early_exit_threshold = 0.95` rather than being
treated as invalid. -/
theorem score_invalid_iff_unparseable (resp : Option ℚ) :
    (compare_articles_score resp = -1 ↔ resp = none) ∧
    (∀ v : ℚ, compare_articles_score (some v) = max 0 (min 1 v) ∧
      0 ≤ compare_articles_score (some v) ∧ compare_articles_score (some v) ≤ 1) ∧
    compare_articles_score (some 5) = 1 ∧
    q08 < compare_articles_score (some 5) ∧
    q095 ≤ compare_articles_score (some 5) ∧
    compare_articles_score (some (-3)) = 0 := by
  refine ⟨?_, fun v => ⟨compare_some_eq_clamp v, compare_some_nonneg v, compare_some_le_one v⟩,
    by decide, by decide, by decide, by decide⟩
  cases resp with
  | none => simp [compare_articles_score]
  | some v =>
    constructor
    · intro h
      exfalso
      have h0 := compare_some_nonneg v
      rw [h] at h0
      norm_num at h0
    · intro h
      exact absurd h (by simp)

/-- C4: on the scenario of three articles A (doc1), B (doc2), C (doc3) with
oracle scores A-B = 0.9 and A-C = 0.3 (other pairings scoring 0),
`llm_threshold = 0.8`, `early_exit = 0.95`, `tfidf_threshold = 0` (all pairs
pass the pre-filter), the engine produces exactly two clusters: A founds the
first cluster and B joins it as a non-reference member, and C founds a
second cluster with a single member. -/
theorem scenario_three_articles_two_clusters :
    (cluster_articles_with_tfidf scenarioArticles scenarioTfidf scenarioOracle
        0 q08 q095).clusters =
      [("doc1 a1", [⟨articleA, true⟩, ⟨articleB, false⟩]),
       ("doc3 c1", [⟨articleC, true⟩])] := by
  decide

/-- A fold preserves any property preserved by each step. -/
theorem foldl_preserves {α β : Type _} (P : α → Prop) (f : α → β → α)
    (hf : ∀ a b, P a → P (f a b)) : ∀ (l : List β) (a : α), P a → P (l.foldl f a)
  | [], _, h => h
  | b :: l, a, h => foldl_preserves P f hf l (f a b) (hf a b h)

/-- Dictionary assignment never empties the store. -/
theorem dictInsert_ne_nil (d : List (String × List Member)) (k : String)
    (v : List Member) : dictInsert d k v ≠ [] := by
  cases d with
  | nil => simp [dictInsert]
  | cons x rest =>
    simp only [dictInsert]
    split <;> simp

/-- Appending a member to a cluster never empties the store. -/
theorem dictAppendMember_ne_nil (d : List (String × List Member)) (k : String)
    (m : Member) (hd : d ≠ []) : dictAppendMember d k m ≠ [] := by
  cases d with
  | nil => exact absurd rfl hd
  | cons x rest =>
    cases x with
    | mk k2 ms =>
      simp only [dictAppendMember]
      split <;> simp

/-- Every branch of one engine iteration leaves the cluster store nonempty
once it is nonempty. -/
theorem processArticle_clusters_ne_nil (articles : List Article)
    (tfidfSim : Nat → Nat → ℚ) (oracle : Nat → Nat → Option ℚ)
    (t1 T E : ℚ) (st : EngineState) (idx : Nat) (h : st.clusters ≠ []) :
    (processArticle articles tfidfSim oracle t1 T E st idx).clusters ≠ [] := by
  unfold processArticle
  dsimp only
  split
  · exact dictInsert_ne_nil _ _ _
  · split
    · exact dictInsert_ne_nil _ _ _
    · split
      · exact dictInsert_ne_nil _ _ _
      · exact dictAppendMember_ne_nil _ _ _ h

/-- C6 counterexample: with the threshold ordering violated
(`llm_threshold = 0.95 > early_exit = 0.8`), the engine does not fail: it
processes the whole scenario, issues oracle calls (three queried pairs) and
creates two clusters, contradicting the claim that a fatal configuration
error is reported before any article is processed. -/
theorem threshold_violation_still_processes_cex :
    (cluster_articles_with_tfidf scenarioArticles scenarioTfidf scenarioOracle
        0 q095 q08).clusters.length = 2 ∧
    (cluster_articles_with_tfidf scenarioArticles scenarioTfidf scenarioOracle
        0 q095 q08).queried_pairs = [(1, 0), (2, 0), (2, 1)] := by
  decide

/-- C6 amended: the engine performs no validation of the threshold ordering.
A configuration with `early_exit < llm_threshold` is processed like any
other: for every nonempty article sequence the run proceeds and produces at
least one cluster (beginning with the first article promoted as reference)
instead of failing before processing. -/
theorem threshold_ordering_not_validated (articles : List Article)
    (tfidfSim : Nat → Nat → ℚ) (oracle : Nat → Nat → Option ℚ)
    (t1 T E : ℚ) (_hviol : E < T) (hne : articles ≠ []) :
    (cluster_articles_with_tfidf articles tfidfSim oracle t1 T E).clusters ≠ [] := by
  unfold cluster_articles_with_tfidf
  cases articles with
  | nil => exact absurd rfl hne
  | cons a rest =>
    rw [List.length_cons, List.range_succ_eq_map, List.foldl_cons]
    apply foldl_preserves (fun st => st.clusters ≠ [])
      (processArticle (a :: rest) tfidfSim oracle t1 T E)
      (fun st i hst => processArticle_clusters_ne_nil _ _ _ _ _ _ st i hst)
    simp only [processArticle, initState, if_pos rfl]
    exact dictInsert_ne_nil _ _ _

/-- C6 amended witness: the scenario run with `llm_threshold = 0.95` above
`early_exit = 0.8` produces a nonempty cluster store. -/
theorem threshold_ordering_not_validated_witness :
    (cluster_articles_with_tfidf scenarioArticles scenarioTfidf scenarioOracle
        0 q095 q08).clusters ≠ [] :=
  threshold_ordering_not_validated scenarioArticles scenarioTfidf scenarioOracle
    0 q095 q08 (by decide) (by decide)

/-- An article with an empty paragraph list, for the C7 counterexample. -/
def noParaArticle : Article := ⟨"docX", "x1", "X", []⟩

/-- C7 counterexample: an article with no paragraphs is not skipped — fed as
the only input it founds a cluster and appears in the resulting store,
contradicting the claim that such an article neither founds nor joins a
cluster. -/
theorem no_paragraphs_not_skipped_cex :
    (cluster_articles_with_tfidf [noParaArticle] (fun _ _ => 0) (fun _ _ => none)
        0 q08 q095).clusters = [("docX x1", [⟨noParaArticle, true⟩])] := by
  decide

/-- C7 amended: an article with no paragraphs is processed like any other
and never causes a crash, but it is not skipped and no warning is recorded:
its text is built from the document name, article id and article name alone,
and (fed as the only input, for any thresholds and oracle) it founds a
cluster. -/
theorem no_paragraphs_processed_normally (a : Article) (ha : a.paragraphs = [])
    (tfidfSim : Nat → Nat → ℚ) (oracle : Nat → Nat → Option ℚ) (t1 T E : ℚ) :
    build_article_text a =
      a.docName ++ "\n" ++ a.articleId ++ "\n" ++ a.articleName ++ "\n" ∧
    (cluster_articles_with_tfidf [a] tfidfSim oracle t1 T E).clusters =
      [(labelOf a, [⟨a, true⟩])] := by
  constructor
  · simp [build_article_text, ha, String.join]
  · have hr : List.range 1 = [0] := rfl
    simp [cluster_articles_with_tfidf, hr, processArticle, initState,
      dictInsert, List.getD]

/-- C7 amended witness: the concrete paragraph-free article has its text
built from the header fields alone and founds the single cluster of its
run. -/
theorem no_paragraphs_processed_normally_witness :
    build_article_text noParaArticle = "docX" ++ "\n" ++ "x1" ++ "\n" ++ "X" ++ "\n" ∧
    (cluster_articles_with_tfidf [noParaArticle] (fun _ _ => qHalf)
        (fun _ _ => some q09) q03 q08 q095).clusters =
      [(labelOf noParaArticle, [⟨noParaArticle, true⟩])] :=
  no_paragraphs_processed_normally noParaArticle rfl (fun _ _ => qHalf)
    (fun _ _ => some q09) q03 q08 q095

/-- C3 counterexample: an invalid oracle result does win a best-score
comparison against the initial sentinel: with a single candidate whose
response is unparseable, `best_score` is raised from its initial `-5.0`
to the invalid sentinel `-1.0`, contradicting the claim that an invalid
result never raises `best_score`. -/
theorem invalid_raises_best_score_cex :
    (llmLoop (fun _ => compare_articles_score none) (fun _ => "L") q08 q095
        [0] initLoop).best_score = -1 ∧
    initLoop.best_score <
      (llmLoop (fun _ => compare_articles_score none) (fun _ => "L") q08 q095
        [0] initLoop).best_score := by
  decide

/-- C3 amended: a candidate pairing whose oracle response is unparseable
(score `-1`) never enters `preliminary_matches` (for any
`llm_threshold ≥ -1`), never triggers the early exit (for any
`early_exit > -1`), and does not abort the loop: the remaining candidates
are still evaluated from a state with unchanged `preliminary_matches`.
It never raises `best_score` above any valid score or prior invalid:
`best_score` only changes to `max best_score (-1)`, i.e. the invalid result
can win the best-score comparison only against the initial `-5.0` sentinel. -/
theorem invalid_score_handling (oracleResp : Nat → Option ℚ) (refLabel : Nat → String)
    (T E : ℚ) (r : Nat) (rest : List Nat) (s : LoopState)
    (hT : -1 ≤ T) (hE : -1 < E) (hr : oracleResp r = none) :
    llmLoop (fun c => compare_articles_score (oracleResp c)) refLabel T E (r :: rest) s =
      llmLoop (fun c => compare_articles_score (oracleResp c)) refLabel T E rest
        { best_score := max s.best_score (-1),
          best_ref_label := if s.best_score < -1 then some (refLabel r) else s.best_ref_label,
          best_ref_idx := if s.best_score < -1 then some r else s.best_ref_idx,
          prelim_matches := s.prelim_matches,
          queried := s.queried ++ [r] } := by
  have hscore : compare_articles_score (oracleResp r) = -1 := by
    rw [hr]
    rfl
  rcases lt_or_le s.best_score (-1) with h | h
  · simp only [llmLoop, hscore, if_neg (not_lt.2 hT), if_neg (not_le.2 hE), if_pos h,
      max_eq_right h.le]
  · simp only [llmLoop, hscore, if_neg (not_lt.2 hT), if_neg (not_le.2 hE),
      if_neg (not_lt.2 h), max_eq_left h]

/-- C3 amended witness: with one invalid candidate and thresholds 0.8 and
0.95, the loop steps to the tail with `prelim_matches` unchanged and
`best_score` only raised to `-1`. -/
theorem invalid_score_handling_witness :
    llmLoop (fun _ : Nat => compare_articles_score none) (fun _ => "L") q08 q095
        [0] initLoop =
      llmLoop (fun _ : Nat => compare_articles_score none) (fun _ => "L") q08 q095 []
        { best_score := max initLoop.best_score (-1),
          best_ref_label := if initLoop.best_score < -1 then some "L"
            else initLoop.best_ref_label,
          best_ref_idx := if initLoop.best_score < -1 then some 0
            else initLoop.best_ref_idx,
          prelim_matches := initLoop.prelim_matches,
          queried := initLoop.queried ++ [0] } :=
  invalid_score_handling (fun _ => none) (fun _ => "L") q08 q095 0 [] initLoop
    (by decide) (by decide) rfl

/-- If the candidates strictly before position `k` all score below
`early_exit` and candidate `k` reaches it, the loop stops at `k`: the
queried list is exactly the first `k + 1` candidates and the preliminary
matches are overridden with the single candidate `k`. -/
theorem llmLoop_early_exit_eq (f : Nat → ℚ) (lbl : Nat → String) (T E : ℚ) :
    ∀ (cands : List Nat) (k : Nat) (hk : k < cands.length) (s : LoopState),
      E ≤ f (cands.get ⟨k, hk⟩) →
      (∀ j (hj : j < k), f (cands.get ⟨j, Nat.lt_trans hj hk⟩) < E) →
      llmLoop f lbl T E cands s =
        { best_score := f (cands.get ⟨k, hk⟩),
          best_ref_label := some (lbl (cands.get ⟨k, hk⟩)),
          best_ref_idx := some (cands.get ⟨k, hk⟩),
          prelim_matches :=
            [(lbl (cands.get ⟨k, hk⟩), f (cands.get ⟨k, hk⟩), cands.get ⟨k, hk⟩)],
          queried := s.queried ++ cands.take (k + 1) }
  | [], k, hk => absurd hk (Nat.not_lt_zero k)
  | c :: cs, 0, _ => by
    intro s hE _
    have hEc : E ≤ f c := hE
    simp only [llmLoop, if_pos hEc]
    rfl
  | c :: cs, k1 + 1, hk => by
    intro s hE hlt
    have hc : f c < E := hlt 0 (Nat.succ_pos k1)
    have ih := llmLoop_early_exit_eq f lbl T E cs k1 (Nat.lt_of_succ_lt_succ hk)
    simp only [llmLoop, if_neg (not_le.2 hc)]
    rw [ih _ hE (fun j hj => hlt (j + 1) (Nat.succ_lt_succ hj))]
    simp [List.take_succ_cons, List.append_assoc]

/-- C2: whenever the candidate at position `k` is the first whose score
reaches `early_exit`, the loop queries exactly the candidates up to and
including `k`, discards any previously accumulated preliminary matches in
favour of the single candidate `k`, and the article is appended to candidate
`k`'s cluster. -/
theorem early_exit_short_circuit (articles : List Article)
    (tfidfSim : Nat → Nat → ℚ) (oracle : Nat → Nat → Option ℚ)
    (t1 T E : ℚ) (st : EngineState) (idx k : Nat) (cands : List Nat)
    (hidx : idx ≠ 0)
    (hc : candidateRefs articles tfidfSim t1 st.reference_indices idx = cands)
    (hk : k < cands.length)
    (hE : E ≤ compare_articles_score (oracle idx (cands.get ⟨k, hk⟩)))
    (hlt : ∀ j (hj : j < k),
      compare_articles_score (oracle idx (cands.get ⟨j, Nat.lt_trans hj hk⟩)) < E) :
    (llmLoop (fun r => compare_articles_score (oracle idx r))
        (fun r => (List.lookup r st.reference_to_label).getD "") T E cands
        initLoop).queried = cands.take (k + 1) ∧
    (llmLoop (fun r => compare_articles_score (oracle idx r))
        (fun r => (List.lookup r st.reference_to_label).getD "") T E cands
        initLoop).prelim_matches =
      [((List.lookup (cands.get ⟨k, hk⟩) st.reference_to_label).getD "",
        compare_articles_score (oracle idx (cands.get ⟨k, hk⟩)), cands.get ⟨k, hk⟩)] ∧
    (processArticle articles tfidfSim oracle t1 T E st idx).clusters =
      dictAppendMember st.clusters
        ((List.lookup (cands.get ⟨k, hk⟩) st.reference_to_label).getD "")
        ⟨articles.getD idx default, false⟩ := by
  have hloop := llmLoop_early_exit_eq (fun r => compare_articles_score (oracle idx r))
    (fun r => (List.lookup r st.reference_to_label).getD "") T E cands k hk initLoop hE hlt
  have hne : cands.isEmpty = false := by
    cases cands with
    | nil => exact absurd hk (Nat.not_lt_zero k)
    | cons c cs => rfl
  refine ⟨?_, ?_, ?_⟩
  · rw [hloop]
    simp [initLoop]
  · rw [hloop]
  · simp only [processArticle, if_neg hidx, hc, hne, hloop]
    simp [pyMax]

/-- Engine state after processing article A alone, used to witness the
early-exit theorem. -/
def witState : EngineState :=
  ⟨[0], [(0, "doc1 a1")], [("doc1 a1", [⟨articleA, true⟩])], [], 0⟩

/-- Two-article input for the early-exit witness. -/
def witArticles : List Article := [articleA, articleB]

/-- Witness oracle: the pairing of article 1 with reference 0 scores 0.96,
above the early-exit threshold 0.95. -/
def witOracle : Nat → Nat → Option ℚ := fun i r =>
  if i = 1 && r = 0 then some q096 else none

/-- C2 witness: with one candidate scoring 0.96 at thresholds 0.8 / 0.95,
the loop queries only that candidate, keeps it as the single preliminary
match and the article joins its cluster. -/
theorem early_exit_short_circuit_witness :
    (llmLoop (fun r => compare_articles_score (witOracle 1 r))
        (fun r => (List.lookup r witState.reference_to_label).getD "") q08 q095
        [0] initLoop).queried = [0] ∧
    (llmLoop (fun r => compare_articles_score (witOracle 1 r))
        (fun r => (List.lookup r witState.reference_to_label).getD "") q08 q095
        [0] initLoop).prelim_matches = [("doc1 a1", q096, 0)] ∧
    (processArticle witArticles scenarioTfidf witOracle 0 q08 q095 witState 1).clusters =
      dictAppendMember witState.clusters "doc1 a1" ⟨articleB, false⟩ :=
  early_exit_short_circuit witArticles scenarioTfidf witOracle 0 q08 q095 witState 1 0 [0]
    (by decide) (by decide) (by decide) (by decide)
    (fun j hj => absurd hj (Nat.not_lt_zero j))

/-- Decomposition of the Python `max` with key: the chosen element splits the
list into a strict-smaller prefix and a no-larger suffix, so among equal
maximal scores the earliest element wins. -/
theorem pyMax_split : ∀ (xs : List (String × ℚ × Nat)) (x : String × ℚ × Nat),
    ∃ l1 l2, x :: xs = l1 ++ pyMax x xs :: l2 ∧
      (∀ e ∈ l1, e.2.1 < (pyMax x xs).2.1) ∧
      (∀ e ∈ x :: xs, e.2.1 ≤ (pyMax x xs).2.1)
  | [], x => ⟨[], [], by simp [pyMax], by simp, by simp [pyMax]⟩
  | y :: ys, x => by
    by_cases hxy : x.2.1 < y.2.1
    · have hm : pyMax x (y :: ys) = pyMax y ys := by
        simp only [pyMax]
        rw [if_pos hxy]
      obtain ⟨l1, l2, heq, hlt, hle⟩ := pyMax_split ys y
      rw [hm]
      refine ⟨x :: l1, l2, ?_, ?_, ?_⟩
      · rw [List.cons_append]
        exact congrArg (x :: ·) heq
      · intro e he
        rcases List.mem_cons.1 he with rfl | he2
        · exact lt_of_lt_of_le hxy (hle y (List.mem_cons_self y ys))
        · exact hlt e he2
      · intro e he
        rcases List.mem_cons.1 he with rfl | he2
        · exact (lt_of_lt_of_le hxy (hle y (List.mem_cons_self y ys))).le
        · exact hle e he2
    · have hm : pyMax x (y :: ys) = pyMax x ys := by
        simp only [pyMax]
        rw [if_neg hxy]
      obtain ⟨l1, l2, heq, hlt, hle⟩ := pyMax_split ys x
      rw [hm]
      cases l1 with
      | nil =>
        rw [List.nil_append] at heq
        injection heq with h1 h2
        refine ⟨[], y :: ys, ?_, by simp, ?_⟩
        · rw [List.nil_append, ← h1]
        · intro e he
          rcases List.mem_cons.1 he with rfl | he2
          · rw [← h1]
          · rcases List.mem_cons.1 he2 with rfl | he3
            · rw [← h1]
              exact not_lt.1 hxy
            · exact hle e (List.mem_cons_of_mem x he3)
      | cons h t =>
        rw [List.cons_append] at heq
        injection heq with h1 h2
        have hx_lt : x.2.1 < (pyMax x ys).2.1 := by
          have hh := hlt h (List.mem_cons_self h t)
          rw [← h1] at hh
          exact hh
        refine ⟨x :: y :: t, l2, ?_, ?_, ?_⟩
        · rw [List.cons_append, List.cons_append]
          exact congrArg (x :: ·) (congrArg (y :: ·) h2)
        · intro e he
          rcases List.mem_cons.1 he with rfl | he2
          · exact hx_lt
          · rcases List.mem_cons.1 he2 with rfl | he3
            · exact lt_of_le_of_lt (not_lt.1 hxy) hx_lt
            · exact hlt e (List.mem_cons_of_mem h he3)
        · intro e he
          rcases List.mem_cons.1 he with rfl | he2
          · exact hx_lt.le
          · rcases List.mem_cons.1 he2 with rfl | he3
            · exact (lt_of_le_of_lt (not_lt.1 hxy) hx_lt).le
            · exact hle e (List.mem_cons_of_mem x he3)

/-- C5: when the preliminary match list of an article is nonempty, the
article is appended (as a non-reference member) to the cluster of the
preliminary match with the maximum score, and among matches sharing that
maximum score the earliest in candidate order wins: the chosen entry has a
strictly smaller-scored prefix before it and no entry scores above it. -/
theorem max_score_tie_break_earliest (articles : List Article)
    (tfidfSim : Nat → Nat → ℚ) (oracle : Nat → Nat → Option ℚ)
    (t1 T E : ℚ) (st : EngineState) (idx : Nat)
    (p : String × ℚ × Nat) (ps : List (String × ℚ × Nat))
    (hidx : idx ≠ 0)
    (hne : (candidateRefs articles tfidfSim t1 st.reference_indices idx).isEmpty = false)
    (hp : (llmLoop (fun r => compare_articles_score (oracle idx r))
        (fun r => (List.lookup r st.reference_to_label).getD "") T E
        (candidateRefs articles tfidfSim t1 st.reference_indices idx)
        initLoop).prelim_matches = p :: ps) :
    ∃ l1 l2, p :: ps = l1 ++ pyMax p ps :: l2 ∧
      (∀ e ∈ l1, e.2.1 < (pyMax p ps).2.1) ∧
      (∀ e ∈ p :: ps, e.2.1 ≤ (pyMax p ps).2.1) ∧
      (processArticle articles tfidfSim oracle t1 T E st idx).clusters =
        dictAppendMember st.clusters (pyMax p ps).1 ⟨articles.getD idx default, false⟩ ∧
      (processArticle articles tfidfSim oracle t1 T E st idx).reference_to_label =
        st.reference_to_label ++ [(idx, (pyMax p ps).1)] := by
  obtain ⟨l1, l2, heq, hlt, hle⟩ := pyMax_split ps p
  refine ⟨l1, l2, heq, hlt, hle, ?_, ?_⟩ <;>
    simp only [processArticle, if_neg hidx, hne, hp, Bool.false_eq_true, if_false]

/-- Preliminary-match list with a tie, for the C5 witness: both candidates
score 0.9, the first is chosen. -/
def tieState : EngineState :=
  ⟨[0, 1], [(0, "doc1 a1"), (1, "doc2 b1")],
    [("doc1 a1", [⟨articleA, true⟩]), ("doc2 b1", [⟨articleB, true⟩])], [], 0⟩

/-- Witness oracle for the tie-break: article 2 scores 0.9 against both
references. -/
def tieOracle : Nat → Nat → Option ℚ := fun i _ =>
  if i = 2 then some q09 else none

/-- C5 witness: with two preliminary matches both scoring 0.9, the first
one (`doc1 a1`) is chosen and article C joins its cluster. -/
theorem max_score_tie_break_earliest_witness :
    ∃ l1 l2,
      [("doc1 a1", q09, 0), ("doc2 b1", q09, 1)] =
        l1 ++ pyMax ("doc1 a1", q09, 0) [("doc2 b1", q09, 1)] :: l2 ∧
      (∀ e ∈ l1, e.2.1 < (pyMax ("doc1 a1", q09, 0) [("doc2 b1", q09, 1)]).2.1) ∧
      (∀ e ∈ [("doc1 a1", q09, 0), ("doc2 b1", q09, 1)],
        e.2.1 ≤ (pyMax ("doc1 a1", q09, 0) [("doc2 b1", q09, 1)]).2.1) ∧
      (processArticle scenarioArticles scenarioTfidf tieOracle 0 q08 q095
          tieState 2).clusters =
        dictAppendMember tieState.clusters
          (pyMax ("doc1 a1", q09, 0) [("doc2 b1", q09, 1)]).1 ⟨articleC, false⟩ ∧
      (processArticle scenarioArticles scenarioTfidf tieOracle 0 q08 q095
          tieState 2).reference_to_label =
        tieState.reference_to_label ++
          [(2, (pyMax ("doc1 a1", q09, 0) [("doc2 b1", q09, 1)]).1)] :=
  max_score_tie_break_earliest scenarioArticles scenarioTfidf tieOracle 0 q08 q095
    tieState 2 ("doc1 a1", q09, 0) [("doc2 b1", q09, 1)]
    (by decide) (by decide) (by decide)

/-- A well-formed member list: a reference head followed by non-reference
members only. -/
def clusterWF (ms : List Member) : Prop :=
  ∃ a rest, ms = ⟨a, true⟩ :: rest ∧ ∀ m2 ∈ rest, m2.reference_article = false

/-- Dictionary assignment with a well-formed value preserves store
well-formedness. -/
theorem dictInsert_storeWF (v : List Member) (hv : clusterWF v) :
    ∀ (d : List (String × List Member)) (k : String),
      (∀ c ∈ d, clusterWF c.2) → ∀ c ∈ dictInsert d k v, clusterWF c.2
  | [], k, _ => by
    intro c hc
    rcases List.mem_singleton.1 hc with rfl
    exact hv
  | (k2, v2) :: rest, k, hd => by
    intro c hc
    simp only [dictInsert] at hc
    by_cases hk : k2 = k
    · rw [if_pos hk] at hc
      rcases List.mem_cons.1 hc with rfl | hc2
      · exact hv
      · exact hd c (List.mem_cons_of_mem _ hc2)
    · rw [if_neg hk] at hc
      rcases List.mem_cons.1 hc with rfl | hc2
      · exact hd _ (List.mem_cons_self _ _)
      · exact dictInsert_storeWF v hv rest k
          (fun c2 hc2 => hd c2 (List.mem_cons_of_mem _ hc2)) c hc2

/-- Appending a non-reference member preserves store well-formedness. -/
theorem dictAppendMember_storeWF (m : Member) (hm : m.reference_article = false) :
    ∀ (d : List (String × List Member)) (k : String),
      (∀ c ∈ d, clusterWF c.2) → ∀ c ∈ dictAppendMember d k m, clusterWF c.2
  | [], _, _ => by
    intro c hc
    exact absurd hc (List.not_mem_nil c)
  | (k2, ms) :: rest, k, hd => by
    intro c hc
    simp only [dictAppendMember] at hc
    by_cases hk : k2 = k
    · rw [if_pos hk] at hc
      rcases List.mem_cons.1 hc with rfl | hc2
      · obtain ⟨a, r, hr, hrest⟩ := hd (k2, ms) (List.mem_cons_self _ _)
        refine ⟨a, r ++ [m], ?_, ?_⟩
        · have hr2 : ms = Member.mk a true :: r := hr
          show ms ++ [m] = Member.mk a true :: (r ++ [m])
          rw [hr2, List.cons_append]
        · intro m2 hm2
          rcases List.mem_append.1 hm2 with h2 | h2
          · exact hrest m2 h2
          · rcases List.mem_singleton.1 h2 with rfl
            exact hm
      · exact hd c (List.mem_cons_of_mem _ hc2)
    · rw [if_neg hk] at hc
      rcases List.mem_cons.1 hc with rfl | hc2
      · exact hd _ (List.mem_cons_self _ _)
      · exact dictAppendMember_storeWF m hm rest k
          (fun c2 hc2 => hd c2 (List.mem_cons_of_mem _ hc2)) c hc2

/-- One engine iteration preserves store well-formedness: promotions insert
a singleton reference member, assignments append a non-reference member. -/
theorem processArticle_storeWF (articles : List Article)
    (tfidfSim : Nat → Nat → ℚ) (oracle : Nat → Nat → Option ℚ)
    (t1 T E : ℚ) (st : EngineState) (idx : Nat)
    (h : ∀ c ∈ st.clusters, clusterWF c.2) :
    ∀ c ∈ (processArticle articles tfidfSim oracle t1 T E st idx).clusters,
      clusterWF c.2 := by
  unfold processArticle
  dsimp only
  split
  · exact dictInsert_storeWF _ ⟨_, [], rfl, by simp⟩ _ _ h
  · split
    · exact dictInsert_storeWF _ ⟨_, [], rfl, by simp⟩ _ _ h
    · split
      · exact dictInsert_storeWF _ ⟨_, [], rfl, by simp⟩ _ _ h
      · exact dictAppendMember_storeWF _ rfl _ _ h

/-- C9: in the store produced by any run, every cluster consists of a
founding member carrying `reference_article = true` in first position
followed only by members carrying `reference_article = false`; in
particular each cluster has exactly one reference member. -/
theorem unique_reference_first_member (articles : List Article)
    (tfidfSim : Nat → Nat → ℚ) (oracle : Nat → Nat → Option ℚ) (t1 T E : ℚ) :
    ∀ c ∈ (cluster_articles_with_tfidf articles tfidfSim oracle t1 T E).clusters,
      ∃ a rest, c.2 = ⟨a, true⟩ :: rest ∧
        (∀ m2 ∈ rest, m2.reference_article = false) ∧
        (c.2.filter (fun m2 => m2.reference_article)).length = 1 := by
  intro c hc
  have hwf : ∀ c2 ∈ (cluster_articles_with_tfidf articles tfidfSim oracle
      t1 T E).clusters, clusterWF c2.2 := by
    unfold cluster_articles_with_tfidf
    apply foldl_preserves (fun st : EngineState => ∀ c2 ∈ st.clusters, clusterWF c2.2)
      (processArticle articles tfidfSim oracle t1 T E)
    · intro st i hst
      exact processArticle_storeWF articles tfidfSim oracle t1 T E st i hst
    · intro c2 hc2
      exact absurd hc2 (List.not_mem_nil c2)
  obtain ⟨a, rest, hr, hrest⟩ := hwf c hc
  refine ⟨a, rest, hr, hrest, ?_⟩
  rw [hr]
  have hnil : rest.filter (fun m2 => m2.reference_article) = [] :=
    List.filter_eq_nil_iff.2 (fun m2 hm2 => by simp [hrest m2 hm2])
  simp [List.filter_cons, hnil]

/-- C9 witness: the two-member scenario cluster has its reference member
first and exactly one reference member. -/
theorem unique_reference_first_member_witness :
    ∃ a rest,
      (("doc1 a1", [Member.mk articleA true, Member.mk articleB false]) :
        String × List Member).2 = ⟨a, true⟩ :: rest ∧
      (∀ m2 ∈ rest, m2.reference_article = false) ∧
      ((("doc1 a1", [Member.mk articleA true, Member.mk articleB false]) :
        String × List Member).2.filter (fun m2 => m2.reference_article)).length = 1 :=
  unique_reference_first_member scenarioArticles scenarioTfidf scenarioOracle 0 q08 q095
    ("doc1 a1", [Member.mk articleA true, Member.mk articleB false]) (by decide)

/-- Two folds over the same list preserve a relation preserved by their
steps. -/
theorem foldl_rel {α β : Type _} (R : α → α → Prop) (f g : α → β → α)
    (h : ∀ a b x, R a b → R (f a x) (g b x)) :
    ∀ (l : List β) (a b : α), R a b → R (l.foldl f a) (l.foldl g b)
  | [], _, _, hab => hab
  | x :: l, a, b, hab => foldl_rel R f g h l (f a x) (g b x) (h a b x hab)

/-- Every branch of one engine iteration appends the article index to the
reference pool, so the pool is independent of the thresholds. -/
theorem processArticle_refs (articles : List Article) (tfidfSim : Nat → Nat → ℚ)
    (oracle : Nat → Nat → Option ℚ) (t1 T E : ℚ) (st : EngineState) (idx : Nat) :
    (processArticle articles tfidfSim oracle t1 T E st idx).reference_indices =
      st.reference_indices ++ [idx] := by
  unfold processArticle
  dsimp only
  split
  · rfl
  · split
    · rfl
    · split <;> rfl

/-- Raising `llm_threshold` can only shrink the preliminary match list:
if the loop at the higher threshold `T2` ends with a nonempty match list,
so does the loop at `T1 ≤ T2` (the early exit and the queried candidates do
not depend on the threshold, and each recorded candidate at `T2` is also
recorded at `T1`). -/
theorem llmLoop_prelim_ne_mono (f : Nat → ℚ) (lbl1 lbl2 : Nat → String)
    (T1 T2 E : ℚ) (hT : T1 ≤ T2) :
    ∀ (cands : List Nat) (s1 s2 : LoopState),
      (s2.prelim_matches ≠ [] → s1.prelim_matches ≠ []) →
      (llmLoop f lbl2 T2 E cands s2).prelim_matches ≠ [] →
      (llmLoop f lbl1 T1 E cands s1).prelim_matches ≠ []
  | [], _, _, htr => htr
  | r :: rest, s1, s2, htr => by
    by_cases hE : E ≤ f r
    · intro _
      simp only [llmLoop, if_pos hE]
      simp
    · intro h2
      simp only [llmLoop, if_neg hE] at h2 ⊢
      refine llmLoop_prelim_ne_mono f lbl1 lbl2 T1 T2 E hT rest _ _ ?_ h2
      intro hne2
      dsimp only at hne2 ⊢
      by_cases hT2 : T2 < f r
      · have hT1 : T1 < f r := lt_of_le_of_lt hT hT2
        simp only [if_pos hT1]
        simp
      · rw [if_neg hT2] at hne2
        have h1 := htr hne2
        by_cases hT1 : T1 < f r
        · simp only [if_pos hT1]
          simp
        · rw [if_neg hT1]
          exact h1

/-- One engine iteration preserves the coupling between a run at threshold
`T1` and a run at threshold `T2 ≥ T1`: equal reference pools, and the higher
threshold never records more matches. -/
theorem processArticle_match_mono (articles : List Article)
    (tfidfSim : Nat → Nat → ℚ) (oracle : Nat → Nat → Option ℚ)
    (t1 E T1 T2 : ℚ) (hT : T1 ≤ T2) (st1 st2 : EngineState) (idx : Nat)
    (href : st1.reference_indices = st2.reference_indices)
    (hmc : st2.match_count ≤ st1.match_count) :
    (processArticle articles tfidfSim oracle t1 T1 E st1 idx).reference_indices =
      (processArticle articles tfidfSim oracle t1 T2 E st2 idx).reference_indices ∧
    (processArticle articles tfidfSim oracle t1 T2 E st2 idx).match_count ≤
      (processArticle articles tfidfSim oracle t1 T1 E st1 idx).match_count := by
  constructor
  · rw [processArticle_refs, processArticle_refs, href]
  · by_cases hidx : idx = 0
    · simp only [processArticle, if_pos hidx]
      exact hmc
    · simp only [processArticle, if_neg hidx]
      have hcands : candidateRefs articles tfidfSim t1 st2.reference_indices idx =
          candidateRefs articles tfidfSim t1 st1.reference_indices idx := by
        rw [href]
      rw [hcands]
      by_cases hemp :
          (candidateRefs articles tfidfSim t1 st1.reference_indices idx).isEmpty
      · simp only [hemp, if_true]
        exact hmc
      · rw [Bool.not_eq_true] at hemp
        simp only [hemp, Bool.false_eq_true, if_false]
        rcases h1 : (llmLoop (fun r => compare_articles_score (oracle idx r))
            (fun r => (List.lookup r st1.reference_to_label).getD "") T1 E
            (candidateRefs articles tfidfSim t1 st1.reference_indices idx)
            initLoop).prelim_matches with _ | ⟨p1, ps1⟩ <;>
          rcases h2 : (llmLoop (fun r => compare_articles_score (oracle idx r))
            (fun r => (List.lookup r st2.reference_to_label).getD "") T2 E
            (candidateRefs articles tfidfSim t1 st1.reference_indices idx)
            initLoop).prelim_matches with _ | ⟨p2, ps2⟩
        · simp only [h1, h2]
          exact hmc
        · exfalso
          have hne := llmLoop_prelim_ne_mono
            (fun r => compare_articles_score (oracle idx r))
            (fun r => (List.lookup r st1.reference_to_label).getD "")
            (fun r => (List.lookup r st2.reference_to_label).getD "")
            T1 T2 E hT
            (candidateRefs articles tfidfSim t1 st1.reference_indices idx)
            initLoop initLoop (fun h => h) (by rw [h2]; simp)
          exact hne h1
        · simp only [h1, h2]
          exact le_trans hmc (Nat.le_succ _)
        · simp only [h1, h2]
          exact Nat.succ_le_succ hmc

/-- C8: with the article order, TF-IDF similarities, oracle,
`tfidf_threshold` and `early_exit` all held fixed, increasing
`llm_threshold` never increases the number of cross-document matches
recorded (articles appended to an existing cluster as non-reference
members). -/
theorem llm_threshold_monotone (articles : List Article)
    (tfidfSim : Nat → Nat → ℚ) (oracle : Nat → Nat → Option ℚ)
    (t1 E T1 T2 : ℚ) (hT : T1 ≤ T2) :
    (cluster_articles_with_tfidf articles tfidfSim oracle t1 T2 E).match_count ≤
      (cluster_articles_with_tfidf articles tfidfSim oracle t1 T1 E).match_count :=
  (foldl_rel
    (fun a b : EngineState =>
      a.reference_indices = b.reference_indices ∧ b.match_count ≤ a.match_count)
    (processArticle articles tfidfSim oracle t1 T1 E)
    (processArticle articles tfidfSim oracle t1 T2 E)
    (fun a b x hab =>
      processArticle_match_mono articles tfidfSim oracle t1 E T1 T2 hT a b x hab.1 hab.2)
    (List.range articles.length) initState initState ⟨rfl, le_refl 0⟩).2

/-- C8 witness: on the scenario, raising `llm_threshold` from 0.8 to 0.95
does not increase the number of recorded matches. -/
theorem llm_threshold_monotone_witness :
    (cluster_articles_with_tfidf scenarioArticles scenarioTfidf scenarioOracle
        0 q095 q095).match_count ≤
      (cluster_articles_with_tfidf scenarioArticles scenarioTfidf scenarioOracle
        0 q08 q095).match_count :=
  llm_threshold_monotone scenarioArticles scenarioTfidf scenarioOracle 0 q095 q08 q095
    (by decide)

/-- First of two distinct articles sharing document name and article id,
hence sharing the cluster label `docD 1`. -/
def dupA : Article := ⟨"docD", "1", "first", []⟩

/-- Second article with the same label `docD 1` but different content. -/
def dupB : Article := ⟨"docD", "1", "second", []⟩

/-- C1 counterexample: when a newly promoted reference has the same label
as an existing cluster (two articles share document name and article id,
the second is promoted because same-document references are excluded), the
dictionary assignment overwrites the existing cluster and its members are
dropped: article `dupA` is an input but occurs zero times in the final
store, refuting the claim that every input article appears in exactly one
cluster exactly once. -/
theorem partition_label_collision_cex :
    dupA ∈ [dupA, dupB] ∧
    countArticle (cluster_articles_with_tfidf [dupA, dupB] (fun _ _ => 1)
        (fun _ _ => some 1) 0 q08 q095).clusters dupA = 0 ∧
    (cluster_articles_with_tfidf [dupA, dupB] (fun _ _ => 1)
        (fun _ _ => some 1) 0 q08 q095).clusters =
      [("docD 1", [⟨dupB, true⟩])] := by
  decide

/-- The labels of the cluster store entries, in insertion order. -/
def keysOf (cs : List (String × List Member)) : List String := cs.map Prod.fst

/-- Assignment under a fresh key appends the entry at the end. -/
theorem dictInsert_of_not_mem : ∀ (d : List (String × List Member)) (k : String)
    (v : List Member), k ∉ keysOf d → dictInsert d k v = d ++ [(k, v)]
  | [], _, _, _ => rfl
  | (k2, v2) :: rest, k, v, h => by
    have hne : k2 ≠ k := by
      intro he
      exact h (by simp [keysOf, he])
    have hrest : k ∉ keysOf rest := by
      intro he
      exact h (by simp [keysOf]; exact Or.inr (by simpa [keysOf] using he))
    simp only [dictInsert, if_neg hne, List.cons_append]
    rw [dictInsert_of_not_mem rest k v hrest]

/-- Occurrence counting distributes over store concatenation. -/
theorem countArticle_append (d1 d2 : List (String × List Member)) (a : Article) :
    countArticle (d1 ++ d2) a = countArticle d1 a + countArticle d2 a := by
  simp [countArticle]

/-- Appending a member to an existing cluster leaves the key list
unchanged. -/
theorem keysOf_dictAppendMember : ∀ (d : List (String × List Member)) (k : String)
    (m : Member), keysOf (dictAppendMember d k m) = keysOf d
  | [], _, _ => rfl
  | (k2, ms) :: rest, k, m => by
    simp only [dictAppendMember]
    by_cases hk : k2 = k
    · rw [if_pos hk]
      simp [keysOf]
    · rw [if_neg hk]
      simp only [keysOf, List.map_cons]
      rw [show (List.map Prod.fst (dictAppendMember rest k m)) =
        keysOf (dictAppendMember rest k m) from rfl, keysOf_dictAppendMember rest k m]
      rfl

/-- Appending a member to an existing cluster increases the count of its
article by one and leaves other counts unchanged. -/
theorem countArticle_dictAppendMember : ∀ (d : List (String × List Member))
    (k : String) (m : Member) (a : Article), k ∈ keysOf d →
    countArticle (dictAppendMember d k m) a =
      countArticle d a + (if m.article = a then 1 else 0)
  | [], k, _, _, h => absurd h (List.not_mem_nil k)
  | (k2, ms) :: rest, k, m, a, h => by
    by_cases hk : k2 = k
    · simp only [dictAppendMember, if_pos hk, countArticle, List.map_cons, List.sum_cons,
        List.filter_append]
      by_cases hma : m.article = a
      · simp [hma, Nat.add_assoc, Nat.add_comm, Nat.add_left_comm]
      · simp [hma, fun h2 => hma (by exact h2)]
    · have hrest : k ∈ keysOf rest := by
        rcases List.mem_cons.1 h with he | he
        · exact absurd he.symm hk
        · exact he
      simp only [dictAppendMember, if_neg hk, countArticle, List.map_cons, List.sum_cons]
      rw [show ((dictAppendMember rest k m).map
          (fun c => (c.2.filter (fun m2 => m2.article == a)).length)).sum =
        countArticle (dictAppendMember rest k m) a from rfl,
        countArticle_dictAppendMember rest k m a hrest]
      simp [countArticle, Nat.add_assoc]

/-- A successful association lookup is unchanged by appending an entry. -/
theorem lookup_append_some : ∀ (l : List (Nat × String)) (r : Nat) (v : String)
    (p : Nat × String), List.lookup r l = some v → List.lookup r (l ++ [p]) = some v
  | [], _, _, _, h => by simp [List.lookup] at h
  | (k, b) :: t, r, v, p, h => by
    cases hbe : r == k with
    | true => simpa [List.lookup, hbe] using h
    | false =>
      rw [List.cons_append]
      simp only [List.lookup, hbe] at h ⊢
      exact lookup_append_some t r v p h

/-- Looking up a key absent from the prefix finds the appended entry. -/
theorem lookup_append_fresh : ∀ (l : List (Nat × String)) (r : Nat) (L : String),
    (∀ p ∈ l, p.1 ≠ r) → List.lookup r (l ++ [(r, L)]) = some L
  | [], r, L, _ => by simp [List.lookup]
  | (k, b) :: t, r, L, h => by
    have hbe : (r == k) = false := by
      apply beq_eq_false_iff_ne.2
      exact fun he => h (k, b) (List.mem_cons_self _ _) (by simp [he])
    rw [List.cons_append]
    simp only [List.lookup, hbe]
    exact lookup_append_fresh t r L (fun p hp => h p (List.mem_cons_of_mem _ hp))

/-- Every preliminary match either was already present or carries the label
of one of the candidates. -/
theorem llmLoop_prelim_mem (f : Nat → ℚ) (lbl : Nat → String) (T E : ℚ) :
    ∀ (cands : List Nat) (s : LoopState) (e : String × ℚ × Nat),
      e ∈ (llmLoop f lbl T E cands s).prelim_matches →
      e ∈ s.prelim_matches ∨ ∃ r ∈ cands, e.1 = lbl r
  | [], _, _ => fun h => Or.inl h
  | r :: rest, s, e => by
    by_cases hE : E ≤ f r
    · intro h
      simp only [llmLoop, if_pos hE] at h
      rcases List.mem_singleton.1 h with rfl
      exact Or.inr ⟨r, List.mem_cons_self r rest, rfl⟩
    · intro h
      simp only [llmLoop, if_neg hE] at h
      rcases llmLoop_prelim_mem f lbl T E rest _ e h with h2 | ⟨r2, hr2, he2⟩
      · dsimp only at h2
        by_cases hT2 : T < f r
        · rw [if_pos hT2] at h2
          rcases List.mem_append.1 h2 with h3 | h3
          · exact Or.inl h3
          · rcases List.mem_singleton.1 h3 with rfl
            exact Or.inr ⟨r, List.mem_cons_self r rest, rfl⟩
        · rw [if_neg hT2] at h2
          exact Or.inl h2
      · exact Or.inr ⟨r2, List.mem_cons_of_mem r hr2, he2⟩

/-- The Python `max` returns an element of the list. -/
theorem pyMax_mem (x : String × ℚ × Nat) (xs : List (String × ℚ × Nat)) :
    pyMax x xs ∈ x :: xs := by
  obtain ⟨l1, l2, heq, _, _⟩ := pyMax_split xs x
  rw [heq]
  exact List.mem_append_right l1 (List.mem_cons_self _ _)

/-- Counting in a prefix one longer adds the occurrence at the new
position. -/
theorem count_take_succ (articles : List Article) (k : Nat)
    (hk : k < articles.length) (a : Article) :
    (articles.take (k + 1)).count a =
      (articles.take k).count a + (if articles.getD k default = a then 1 else 0) := by
  rw [List.take_succ, List.count_append]
  congr 1
  rw [List.getElem?_eq_getElem hk]
  simp only [Option.toList_some]
  rw [List.count_singleton', List.getD_eq_getElem articles default hk]

/-- Distinct labels force distinct positions. -/
theorem label_inj (articles : List Article)
    (hnodup : (articles.map labelOf).Nodup) (i j : Nat)
    (hi : i < articles.length) (hj : j < articles.length)
    (hlab : labelOf (articles.getD i default) = labelOf (articles.getD j default)) :
    i = j := by
  have hinj := List.nodup_iff_injective_get.1 hnodup
  have hi2 : i < (articles.map labelOf).length := by simpa using hi
  have hj2 : j < (articles.map labelOf).length := by simpa using hj
  have hgi : (articles.map labelOf).get ⟨i, hi2⟩ = labelOf (articles.getD i default) := by
    rw [List.get_map, List.getD_eq_get articles default hi]
  have hgj : (articles.map labelOf).get ⟨j, hj2⟩ = labelOf (articles.getD j default) := by
    rw [List.get_map, List.getD_eq_get articles default hj]
  have : (⟨i, hi2⟩ : Fin (articles.map labelOf).length) = ⟨j, hj2⟩ :=
    hinj (by rw [hgi, hgj, hlab])
  exact congrArg Fin.val this

/-- The member count of a singleton store holding a single member. -/
theorem countArticle_singleton (L : String) (m : Member) (a : Article) :
    countArticle [(L, [m])] a = if m.article = a then 1 else 0 := by
  by_cases he : m.article = a
  · simp [countArticle, List.filter, beq_iff_eq.2 he, he]
  · have hbe : (m.article == a) = false := beq_eq_false_iff_ne.2 he
    simp [countArticle, List.filter, hbe, he]

/-- Run invariant after processing the first `k` articles: every cluster key
is the label of a processed article, the label map covers indices below `k`,
every pooled reference resolves through the label map to an existing cluster
key, and the member occurrences of each article match its occurrences among
the processed prefix. -/
def EngineInv (articles : List Article) (k : Nat) (st : EngineState) : Prop :=
  (∀ l ∈ keysOf st.clusters, ∃ i, i < k ∧ labelOf (articles.getD i default) = l) ∧
  (∀ p ∈ st.reference_to_label, p.1 < k) ∧
  (∀ r ∈ st.reference_indices, ∃ v, List.lookup r st.reference_to_label = some v ∧
    v ∈ keysOf st.clusters) ∧
  (∀ a : Article, countArticle st.clusters a = (articles.take k).count a)

/-- Promotion of article `k` as a new reference preserves the invariant when
all labels are distinct: the fresh label is appended as a new cluster. -/
theorem engineInv_promote (articles : List Article) (k : Nat)
    (hk : k < articles.length) (hnodup : (articles.map labelOf).Nodup)
    (st st2 : EngineState) (hinv : EngineInv articles k st)
    (h1 : st2.reference_indices = st.reference_indices ++ [k])
    (h2 : st2.reference_to_label = st.reference_to_label ++
      [(k, labelOf (articles.getD k default))])
    (h3 : st2.clusters = dictInsert st.clusters (labelOf (articles.getD k default))
      [⟨articles.getD k default, true⟩]) :
    EngineInv articles (k + 1) st2 := by
  obtain ⟨hkeys, hdom, href, hcount⟩ := hinv
  have hfresh : labelOf (articles.getD k default) ∉ keysOf st.clusters := by
    intro hmem
    obtain ⟨i, hik, hil⟩ := hkeys _ hmem
    exact absurd (label_inj articles hnodup i k (lt_trans hik hk) hk hil)
      (Nat.ne_of_lt hik)
  have hins : st2.clusters = st.clusters ++
      [(labelOf (articles.getD k default), [⟨articles.getD k default, true⟩])] := by
    rw [h3, dictInsert_of_not_mem _ _ _ hfresh]
  refine ⟨?_, ?_, ?_, ?_⟩
  · intro l hl
    rw [hins] at hl
    simp only [keysOf, List.map_append] at hl
    rcases List.mem_append.1 hl with h | h
    · obtain ⟨i, hik, hil⟩ := hkeys l h
      exact ⟨i, Nat.lt_succ_of_lt hik, hil⟩
    · simp only [List.map_cons, List.map_nil] at h
      rcases List.mem_singleton.1 h with rfl
      exact ⟨k, Nat.lt_succ_self k, rfl⟩
  · intro p hp
    rw [h2] at hp
    rcases List.mem_append.1 hp with h | h
    · exact Nat.lt_succ_of_lt (hdom p h)
    · rcases List.mem_singleton.1 h with rfl
      exact Nat.lt_succ_self k
  · intro r hr
    rw [h1] at hr
    rcases List.mem_append.1 hr with h | h
    · obtain ⟨v, hlook, hv⟩ := href r h
      refine ⟨v, ?_, ?_⟩
      · rw [h2]
        exact lookup_append_some _ _ _ _ hlook
      · rw [hins]
        simp only [keysOf, List.map_append]
        exact List.mem_append_left _ hv
    · rcases List.mem_singleton.1 h with rfl
      refine ⟨labelOf (articles.getD r default), ?_, ?_⟩
      · rw [h2]
        exact lookup_append_fresh _ _ _ (fun p hp => Nat.ne_of_lt (hdom p hp))
      · rw [hins]
        simp [keysOf]
  · intro a
    rw [hins, countArticle_append, hcount, count_take_succ articles k hk a,
      countArticle_singleton]

/-- Assignment of article `k` to the chosen cluster preserves the invariant:
the chosen label is an existing cluster key, so the member count of article
`k` rises by one and the key set is unchanged. -/
theorem engineInv_assign (articles : List Article) (k : Nat)
    (hk : k < articles.length) (oracle : Nat → Nat → Option ℚ) (T E : ℚ)
    (st st2 : EngineState) (hinv : EngineInv articles k st)
    (cands : List Nat) (hsub : ∀ r ∈ cands, r ∈ st.reference_indices)
    (p : String × ℚ × Nat) (ps : List (String × ℚ × Nat))
    (hres : (llmLoop (fun r => compare_articles_score (oracle k r))
        (fun r => (List.lookup r st.reference_to_label).getD "") T E cands
        initLoop).prelim_matches = p :: ps)
    (h1 : st2.reference_indices = st.reference_indices ++ [k])
    (h2 : st2.reference_to_label = st.reference_to_label ++ [(k, (pyMax p ps).1)])
    (h3 : st2.clusters = dictAppendMember st.clusters (pyMax p ps).1
      ⟨articles.getD k default, false⟩) :
    EngineInv articles (k + 1) st2 := by
  obtain ⟨hkeys, hdom, href, hcount⟩ := hinv
  have hchosen : (pyMax p ps).1 ∈ keysOf st.clusters := by
    have hmem : pyMax p ps ∈ p :: ps := pyMax_mem p ps
    rw [← hres] at hmem
    rcases llmLoop_prelim_mem _ _ _ _ cands initLoop _ hmem with h | ⟨r, hr, he⟩
    · exact absurd h (List.not_mem_nil _)
    · obtain ⟨v, hlook, hv⟩ := href r (hsub r hr)
      rw [he, hlook]
      exact hv
  have hkeq : keysOf st2.clusters = keysOf st.clusters := by
    rw [h3]
    exact keysOf_dictAppendMember _ _ _
  refine ⟨?_, ?_, ?_, ?_⟩
  · intro l hl
    rw [hkeq] at hl
    obtain ⟨i, hik, hil⟩ := hkeys l hl
    exact ⟨i, Nat.lt_succ_of_lt hik, hil⟩
  · intro pp hpp
    rw [h2] at hpp
    rcases List.mem_append.1 hpp with h | h
    · exact Nat.lt_succ_of_lt (hdom pp h)
    · rcases List.mem_singleton.1 h with rfl
      exact Nat.lt_succ_self k
  · intro r hr
    rw [h1] at hr
    rcases List.mem_append.1 hr with h | h
    · obtain ⟨v, hlook, hv⟩ := href r h
      refine ⟨v, ?_, ?_⟩
      · rw [h2]
        exact lookup_append_some _ _ _ _ hlook
      · rw [hkeq]
        exact hv
    · rcases List.mem_singleton.1 h with rfl
      refine ⟨(pyMax p ps).1, ?_, ?_⟩
      · rw [h2]
        exact lookup_append_fresh _ _ _ (fun pp hpp => Nat.ne_of_lt (hdom pp hpp))
      · rw [hkeq]
        exact hchosen
  · intro a
    rw [h3, countArticle_dictAppendMember _ _ _ _ hchosen, hcount,
      count_take_succ articles k hk a]

/-- One engine iteration preserves the run invariant. -/
theorem engineInv_step (articles : List Article) (tfidfSim : Nat → Nat → ℚ)
    (oracle : Nat → Nat → Option ℚ) (t1 T E : ℚ)
    (hnodup : (articles.map labelOf).Nodup) (k : Nat) (hk : k < articles.length)
    (st : EngineState) (hinv : EngineInv articles k st) :
    EngineInv articles (k + 1) (processArticle articles tfidfSim oracle t1 T E st k) := by
  by_cases h0 : k = 0
  · subst h0
    apply engineInv_promote articles 0 hk hnodup st _ hinv <;>
      simp [processArticle]
  · cases hemp : (candidateRefs articles tfidfSim t1 st.reference_indices k).isEmpty with
    | true =>
      apply engineInv_promote articles k hk hnodup st _ hinv <;>
        simp [processArticle, if_neg h0, hemp]
    | false =>
      rcases hres : (llmLoop (fun r => compare_articles_score (oracle k r))
          (fun r => (List.lookup r st.reference_to_label).getD "") T E
          (candidateRefs articles tfidfSim t1 st.reference_indices k)
          initLoop).prelim_matches with _ | ⟨p, ps⟩
      · apply engineInv_promote articles k hk hnodup st _ hinv <;>
          simp [processArticle, if_neg h0, hemp, hres]
      · apply engineInv_assign articles k hk oracle T E st _ hinv
          (candidateRefs articles tfidfSim t1 st.reference_indices k)
          (fun r hr => List.mem_of_mem_filter hr) p ps hres <;>
          simp [processArticle, if_neg h0, hemp, hres]

/-- The run invariant holds after processing any prefix of the articles. -/
theorem engineInv_run (articles : List Article) (tfidfSim : Nat → Nat → ℚ)
    (oracle : Nat → Nat → Option ℚ) (t1 T E : ℚ)
    (hnodup : (articles.map labelOf).Nodup) :
    ∀ k, k ≤ articles.length →
      EngineInv articles k ((List.range k).foldl
        (processArticle articles tfidfSim oracle t1 T E) initState)
  | 0, _ => by
    refine ⟨?_, ?_, ?_, ?_⟩ <;> simp [initState, keysOf, countArticle]
  | k + 1, hk1 => by
    rw [List.range_succ, List.foldl_append]
    exact engineInv_step articles tfidfSim oracle t1 T E hnodup k
      (Nat.lt_of_succ_le hk1) _
      (engineInv_run articles tfidfSim oracle t1 T E hnodup k (Nat.le_of_succ_le hk1))

/-- C1 amended: provided the labels `document name ++ " " ++ article id` of
the input articles are pairwise distinct, every input article appears in
exactly one cluster member list, exactly once (the original claim fails when
a newly promoted reference label collides with an existing cluster label:
the dictionary assignment then overwrites the cluster and drops its
members). -/
theorem partition_invariant_distinct_labels (articles : List Article)
    (tfidfSim : Nat → Nat → ℚ) (oracle : Nat → Nat → Option ℚ) (t1 T E : ℚ)
    (hnodup : (articles.map labelOf).Nodup) :
    ∀ a ∈ articles,
      countArticle (cluster_articles_with_tfidf articles tfidfSim oracle
        t1 T E).clusters a = 1 := by
  intro a ha
  have hinv := engineInv_run articles tfidfSim oracle t1 T E hnodup
    articles.length (le_refl _)
  have hcount := hinv.2.2.2 a
  rw [List.take_length] at hcount
  unfold cluster_articles_with_tfidf
  rw [hcount]
  exact List.count_eq_one_of_mem (List.Nodup.of_map labelOf hnodup) ha

/-- C1 amended witness: on the scenario (whose three labels are distinct),
article A occurs exactly once in the final store. -/
theorem partition_invariant_distinct_labels_witness :
    countArticle (cluster_articles_with_tfidf scenarioArticles scenarioTfidf
        scenarioOracle 0 q08 q095).clusters articleA = 1 :=
  partition_invariant_distinct_labels scenarioArticles scenarioTfidf scenarioOracle
    0 q08 q095 (by decide) articleA (by decide)

end Binitys
